import Mathlib

/-!
Verification of the todo-reminder application (`todo_app.py`).

The development shallowly embeds the program's task store and its
persistence layer:

* `Task` mirrors the Python `Task` object (fields `id`, `description`,
  `due_date`, `reminder_days`, `completed`, `created`).  The `created`
  timestamp, produced by `datetime.now().isoformat()` in Python, is carried
  as an opaque string supplied as an input of the `add` operation.
* `addTask`, `completeTask`, `deleteTask` embed `TodoManager.add_task`,
  `TodoManager.complete_task` and `TodoManager.delete_task` acting on the
  in-memory task list (`self.tasks`).
* `Task.to_dict` / `Task.from_dict` and `saveList` / `loadList` embed the
  persistence round trip at the level of well-formed task records.
* A separate raw level (`Json`, `loadJson`) embeds `TodoManager.load_tasks`
  on arbitrary file contents, including the malformed ones.
* `checkReminders` embeds `TodoManager.check_reminders`, with calendar
  dates mapped to day numbers of the proleptic Gregorian calendar, the
  same calendar Python's `datetime.date` uses.
-/

namespace Todo

/-- One task record, as held in `TodoManager.tasks`.  Fields are exactly the
attributes set by `Task.__init__` plus the `id` assigned by the manager. -/
structure Task where
  id : Int
  description : String
  due_date : Option String
  reminder_days : Int
  completed : Bool
  created : String
deriving DecidableEq, Repr

/-- The serialized form of one task: the dictionary built by `Task.to_dict`,
with the same six fields.  A value of this type corresponds to one
well-formed record of the backing file. -/
structure TaskDict where
  id : Int
  description : String
  due_date : Option String
  reminder_days : Int
  completed : Bool
  created : String
deriving DecidableEq, Repr

/-- `Task.to_dict`: serialize all six fields. -/
def Task.to_dict (t : Task) : TaskDict :=
  ⟨t.id, t.description, t.due_date, t.reminder_days, t.completed, t.created⟩

/-- `Task.from_dict`: rebuild a task from a well-formed record.  The Python
classmethod constructs `Task(description, due_date, reminder_days)` and then
overwrites `id`, `completed` and `created` from the record, so every field
comes from the record. -/
def Task.from_dict (d : TaskDict) : Task :=
  ⟨d.id, d.description, d.due_date, d.reminder_days, d.completed, d.created⟩

/-- `TodoManager.save_tasks`: the file content written is the list of
serialized records, in store order. -/
def saveList (ts : List Task) : List TaskDict :=
  ts.map Task.to_dict

/-- `TodoManager.load_tasks` on a well-formed file: rebuild each record in
order (`[Task.from_dict(t) for t in data]`). -/
def loadList (ds : List TaskDict) : List Task :=
  ds.map Task.from_dict

/-- `TodoManager.add_task`: construct the task (completed = false), assign
`id = len(self.tasks) + 1`, append. -/
def addTask (d : String) (dd : Option String) (rd : Int) (cr : String)
    (ts : List Task) : List Task :=
  ts ++ [⟨(ts.length : Int) + 1, d, dd, rd, false, cr⟩]

/-- `TodoManager.complete_task`: set `completed` on the first task whose id
matches and stop; the Boolean records whether a match was found (`false`
models the "not found" report). -/
def completeTask (i : Int) : List Task → List Task × Bool
  | [] => ([], false)
  | t :: ts =>
    if t.id = i then ({ t with completed := true } :: ts, true)
    else
      let r := completeTask i ts
      (t :: r.1, r.2)

/-- The renumbering pass of `TodoManager.delete_task`:
`for i, task in enumerate(self.tasks, 1): task.id = i`, started at `n`. -/
def renumberFrom (n : Int) : List Task → List Task
  | [] => []
  | t :: ts => { t with id := n } :: renumberFrom (n + 1) ts

/-- `TodoManager.delete_task`: drop every task whose id matches, then
renumber the survivors `1, 2, ...` in their existing order. -/
def deleteTask (i : Int) (ts : List Task) : List Task :=
  renumberFrom 1 (ts.filter (fun t => t.id ≠ i))

/-- The list `[n, n+1, ..., n+k-1]` of `k` consecutive integers:
the id sequence a dense store carries. -/
def idsFrom (n : Int) : Nat → List Int
  | 0 => []
  | k + 1 => n :: idsFrom (n + 1) k

/-- Id density: the store's ids are exactly `1, ..., N` in list order. -/
def denseIds (ts : List Task) : Prop :=
  ts.map Task.id = idsFrom 1 ts.length

instance (ts : List Task) : Decidable (denseIds ts) := by
  unfold denseIds; infer_instance

/-- One invocation of an exposed operation of the core.  `listOp` and
`remind` read the store without mutating it; `reload` replaces the store by
the result of saving it and loading the saved file back. -/
inductive Op where
  | add (d : String) (dd : Option String) (rd : Int) (cr : String)
  | complete (i : Int)
  | delete (i : Int)
  | listOp (showCompleted : Bool)
  | remind (now : Int)
  | reload
deriving DecidableEq, Repr

/-- Effect of one operation on the in-memory store.  `list_tasks` and
`check_reminders` never assign to `self.tasks` nor to any task field, so
their store effect is the identity. -/
def applyOp : Op → List Task → List Task
  | Op.add d dd rd cr, ts => addTask d dd rd cr ts
  | Op.complete i, ts => (completeTask i ts).1
  | Op.delete i, ts => deleteTask i ts
  | Op.listOp _, ts => ts
  | Op.remind _, ts => ts
  | Op.reload, ts => loadList (saveList ts)

/-- Effect of a sequence of operations, applied left to right. -/
def applyOps (ops : List Op) (ts : List Task) : List Task :=
  ops.foldl (fun s op => applyOp op s) ts

/-- The tasks an operation keeps (the whole store, except that `delete`
keeps only the non-matching tasks). -/
def survivors : Op → List Task → List Task
  | Op.add _ _ _ _, ts => ts
  | Op.complete _, ts => ts
  | Op.delete i, ts => ts.filter (fun t => t.id ≠ i)
  | Op.listOp _, ts => ts
  | Op.remind _, ts => ts
  | Op.reload, ts => ts

/-- Id of the most recently appended task, `0` for an empty store. -/
def lastId (ts : List Task) : Int :=
  (ts.getLast?.map Task.id).getD 0

theorem from_dict_to_dict (t : Task) : Task.from_dict (Task.to_dict t) = t := by
  cases t; rfl

theorem load_save (ts : List Task) : loadList (saveList ts) = ts := by
  induction ts with
  | nil => rfl
  | cons t ts ih =>
    simp only [saveList, loadList, List.map_cons, from_dict_to_dict] at *
    exact congrArg (t :: ·) ih

theorem completeTask_map_id (i : Int) (ts : List Task) :
    (completeTask i ts).1.map Task.id = ts.map Task.id := by
  induction ts with
  | nil => rfl
  | cons t ts ih =>
    by_cases h : t.id = i <;> simp [completeTask, h, ih]

theorem completeTask_length (i : Int) (ts : List Task) :
    (completeTask i ts).1.length = ts.length := by
  have := congrArg List.length (completeTask_map_id i ts)
  simpa using this

theorem renumberFrom_map_id (l : List Task) (n : Int) :
    (renumberFrom n l).map Task.id = idsFrom n l.length := by
  induction l generalizing n with
  | nil => rfl
  | cons t l ih => simp [renumberFrom, idsFrom, ih]

theorem renumberFrom_length (l : List Task) (n : Int) :
    (renumberFrom n l).length = l.length := by
  induction l generalizing n with
  | nil => rfl
  | cons t l ih => simp [renumberFrom, ih]

theorem idsFrom_snoc (k : Nat) (n : Int) :
    idsFrom n (k + 1) = idsFrom n k ++ [n + k] := by
  induction k generalizing n with
  | zero => simp [idsFrom]
  | succ k ih =>
    rw [idsFrom, ih, idsFrom]
    simp only [List.cons_append]
    have : n + 1 + (k : Int) = n + (k + 1 : Nat) := by push_cast; ring
    rw [this]

theorem denseIds_applyOp (op : Op) (ts : List Task) (h : denseIds ts) :
    denseIds (applyOp op ts) := by
  cases op with
  | add d dd rd cr =>
    unfold denseIds at *
    simp only [applyOp, addTask, List.map_append, List.map_cons, List.map_nil,
      List.length_append, List.length_cons, List.length_nil, h]
    rw [idsFrom_snoc]
    simp only [List.append_cancel_left_eq, List.cons.injEq, and_true]
    omega
  | complete i =>
    unfold denseIds at *
    rw [applyOp, completeTask_map_id, completeTask_length, h]
  | delete i =>
    unfold denseIds
    rw [applyOp, deleteTask, renumberFrom_map_id, renumberFrom_length]
  | listOp b => exact h
  | remind now => exact h
  | reload =>
    unfold denseIds at *
    rw [applyOp, load_save, h]

theorem denseIds_applyOps (ops : List Op) (ts : List Task) (h : denseIds ts) :
    denseIds (applyOps ops ts) := by
  induction ops generalizing ts with
  | nil => exact h
  | cons op ops ih => exact ih _ (denseIds_applyOp op ts h)

/-- C1: persistence round-trip.  For every store reachable by a sequence of
operations from the empty store, saving the task collection and loading it
back yields a task list equal (field by field, in order) to the in-memory
store right before the save. -/
theorem roundtrip_reachable (ops : List Op) :
    loadList (saveList (applyOps ops [])) = applyOps ops [] :=
  load_save (applyOps ops [])

/-- C2: id density invariant.  Starting from the empty store, after every
sequence of operations the list of ids is exactly `[1, ..., N]` for `N` the
task count; in particular ids are unique, they form the set `{1, ..., N}`,
and ascending id order is list (insertion) order among survivors. -/
theorem id_density_reachable (ops : List Op) :
    denseIds (applyOps ops []) :=
  denseIds_applyOps ops [] rfl

theorem getLast?_snoc {α : Type} (l : List α) (a : α) :
    (l ++ [a]).getLast? = some a := by
  induction l with
  | nil => rfl
  | cons b l ih =>
    rw [List.cons_append, List.getLast?_cons, ih]
    rfl

theorem lastId_addTask (d : String) (dd : Option String) (rd : Int)
    (cr : String) (ts : List Task) :
    lastId (addTask d dd rd cr ts) = (ts.length : Int) + 1 := by
  rw [lastId, addTask, getLast?_snoc]
  rfl

/-- C5: completing an unknown id.  If no task's id matches, `complete_task`
returns the store unchanged (same tasks, fields, count and order) and
signals "not found" (the `false` flag), a normal outcome. -/
theorem complete_unknown_id_noop (ts : List Task) (k : Int)
    (h : ∀ t ∈ ts, t.id ≠ k) : completeTask k ts = (ts, false) := by
  induction ts with
  | nil => rfl
  | cons t ts ih =>
    rw [completeTask]
    rw [if_neg (h t (by simp))]
    rw [ih (fun x hx => h x (by simp [hx]))]

/-- Witness for C5: completing id 2 in a store holding only id 1. -/
theorem complete_unknown_id_noop_witness :
    completeTask 2 [⟨1, "a", none, 0, false, "c"⟩] =
      ([⟨1, "a", none, 0, false, "c"⟩], false) :=
  complete_unknown_id_noop [⟨1, "a", none, 0, false, "c"⟩] 2 (by decide)

theorem completed_update_self (t : Task) (h : t.completed = true) :
    { t with completed := true } = t := by
  cases t
  simp_all

/-- C7 counterexample: in a store with duplicate id 1 whose first id-1 task
is incomplete and whose second is completed, id 1 is "the id of a task that
is already completed", yet `complete_task 1` mutates the store (it completes
the first match).  Duplicate ids are reachable by loading a well-formed
backing file that carries them. -/
theorem complete_idempotent_claim_false :
    (∃ t ∈ ([⟨1, "a", none, 0, false, "c"⟩, ⟨1, "b", none, 0, true, "c"⟩] :
        List Task), t.id = 1 ∧ t.completed = true) ∧
    (completeTask 1
        [⟨1, "a", none, 0, false, "c"⟩, ⟨1, "b", none, 0, true, "c"⟩]).1 ≠
      [⟨1, "a", none, 0, false, "c"⟩, ⟨1, "b", none, 0, true, "c"⟩] := by
  decide

/-- C7 amended: for every store and id `k` such that every task carrying id
`k` is already completed (in a store with unique ids: such that the task
with id `k` is completed), `complete_task k` leaves the task list observably
unchanged — every field, the order and the count. -/
theorem complete_idempotent_amended (ts : List Task) (k : Int)
    (h : ∀ t ∈ ts, t.id = k → t.completed = true) :
    (completeTask k ts).1 = ts := by
  induction ts with
  | nil => rfl
  | cons t ts ih =>
    rw [completeTask]
    by_cases hid : t.id = k
    · rw [if_pos hid]
      exact congrArg (· :: ts) (completed_update_self t (h t (by simp) hid))
    · rw [if_neg hid]
      exact congrArg (t :: ·) (ih (fun x hx => h x (by simp [hx])))

/-- Witness for C7 amended: re-completing the already-completed task 1. -/
theorem complete_idempotent_witness :
    (completeTask 1 [⟨1, "x", none, 0, true, "c"⟩]).1 =
      [⟨1, "x", none, 0, true, "c"⟩] :=
  complete_idempotent_amended [⟨1, "x", none, 0, true, "c"⟩] 1 (by decide)

theorem completeTask_forall₂ (i : Int) (ts : List Task) :
    List.Forall₂ (fun a b => a.completed = true → b.completed = true)
      ts (completeTask i ts).1 := by
  induction ts with
  | nil => exact List.Forall₂.nil
  | cons t ts ih =>
    rw [completeTask]
    by_cases h : t.id = i
    · rw [if_pos h]
      exact List.Forall₂.cons (fun _ => rfl) (List.forall₂_same.2 (fun x _ h => h))
    · rw [if_neg h]
      exact List.Forall₂.cons (fun h => h) ih

theorem renumberFrom_forall₂ (l : List Task) (n : Int) :
    List.Forall₂ (fun a b => a.completed = true → b.completed = true)
      l (renumberFrom n l) := by
  induction l generalizing n with
  | nil => exact List.Forall₂.nil
  | cons t l ih => exact List.Forall₂.cons (fun h => h) (ih (n + 1))

/-- C8: completion is never reversed.  For every operation and every store,
each task that survives the operation (for `delete`, the non-matching
tasks; for every other operation, every task) corresponds positionally to a
task in the resulting store whose completed flag is still set whenever it
was set before; the only other tasks in the result are freshly appended
ones (dropped here by truncating at the survivor count), and `add` appends
with `completed = false`.  `list` and `check_reminders` do not write the
store, and a save/load round trip (`reload`) is covered as an operation. -/
theorem completed_never_unset (op : Op) (ts : List Task) :
    List.Forall₂ (fun a b => a.completed = true → b.completed = true)
      (survivors op ts) ((applyOp op ts).take (survivors op ts).length) := by
  cases op with
  | add d dd rd cr =>
    rw [survivors, applyOp, addTask, List.take_left]
    exact List.forall₂_same.2 (fun x _ h => h)
  | complete i =>
    rw [survivors, applyOp,
      List.take_of_length_le (le_of_eq (completeTask_length i ts))]
    exact completeTask_forall₂ i ts
  | delete i =>
    rw [survivors, applyOp, deleteTask,
      List.take_of_length_le (le_of_eq (renumberFrom_length _ 1))]
    exact renumberFrom_forall₂ _ 1
  | listOp b =>
    rw [survivors, applyOp, List.take_length]
    exact List.forall₂_same.2 (fun x _ h => h)
  | remind now =>
    rw [survivors, applyOp, List.take_length]
    exact List.forall₂_same.2 (fun x _ h => h)
  | reload =>
    rw [survivors, applyOp, load_save, List.take_length]
    exact List.forall₂_same.2 (fun x _ h => h)

/-- C9 counterexample: `add_task` performs no validation, so adding an empty
description with reminder offset `-1` puts a task violating both data-model
constraints into the store. -/
theorem add_validity_claim_false :
    ¬ (∀ t ∈ addTask "" none (-1) "c" ([] : List Task),
        t.description ≠ "" ∧ 0 ≤ t.reminder_days) := by
  decide

/-- C9 amended: `add_task` stores its inputs verbatim — the appended task
carries exactly the given description and reminder offset (and starts
incomplete) — so the constructed task has a non-empty description and
non-negative offset exactly when the inputs do; no validation is
performed. -/
theorem add_validity_amended (d : String) (dd : Option String) (rd : Int)
    (cr : String) (ts : List Task) (hd : d ≠ "") (hr : 0 ≤ rd) :
    ∃ t, (addTask d dd rd cr ts).getLast? = some t ∧
      t.description = d ∧ t.reminder_days = rd ∧ t.completed = false ∧
      t.description ≠ "" ∧ 0 ≤ t.reminder_days := by
  refine ⟨⟨(ts.length : Int) + 1, d, dd, rd, false, cr⟩, ?_, rfl, rfl, rfl, hd, hr⟩
  rw [addTask, getLast?_snoc]

/-- Witness for C9 amended: adding description "x" with offset 0. -/
theorem add_validity_witness :
    ∃ t, (addTask "x" none 0 "c" ([] : List Task)).getLast? = some t ∧
      t.description = "x" ∧ t.reminder_days = 0 ∧ t.completed = false ∧
      t.description ≠ "" ∧ 0 ≤ t.reminder_days :=
  add_validity_amended "x" none 0 "c" [] (by decide) (by decide)

/-- A well-formed backing file whose records carry duplicate,
non-contiguous ids `5, 5, 2`. -/
def dupFile : List TaskDict :=
  [⟨5, "a", none, 0, false, "x"⟩, ⟨5, "b", none, 0, true, "y"⟩,
   ⟨2, "c", none, 0, false, "z"⟩]

/-- C10: load preserves stored ids verbatim.  `from_dict` copies the `id`
field with no renumbering or uniqueness/density check, so the id list of
the loaded store is exactly the id list of the file; the concrete file
`dupFile` loads with ids `[5, 5, 2]`, which is not `{1, ..., N}`, and a
subsequent `delete_task 5` removes both tasks carrying id 5 (its filter
drops every match) before renumbering the lone survivor to id 1. -/
theorem load_ids_verbatim :
    (∀ ds : List TaskDict, (loadList ds).map Task.id = ds.map TaskDict.id) ∧
    (loadList dupFile).map Task.id = [5, 5, 2] ∧
    ¬ denseIds (loadList dupFile) ∧
    deleteTask 5 (loadList dupFile) = [⟨1, "c", none, 0, false, "z"⟩] := by
  refine ⟨?_, by decide, by decide, by decide⟩
  intro ds
  induction ds with
  | nil => rfl
  | cons d ds ih =>
    simp only [loadList, List.map_cons] at *
    exact congrArg (List.cons d.id) ih

theorem mem_idsFrom (m n : Int) (k : Nat) :
    m ∈ idsFrom n k ↔ n ≤ m ∧ m < n + k := by
  induction k generalizing n with
  | zero => simp [idsFrom]
  | succ k ih =>
    rw [idsFrom, List.mem_cons, ih (n + 1)]
    omega

theorem idsFrom_length (n : Int) (k : Nat) : (idsFrom n k).length = k := by
  induction k generalizing n with
  | zero => rfl
  | succ k ih => simp [idsFrom, ih]

theorem idsFrom_filter_ne_length (k : Nat) (n m : Int)
    (h : m ∈ idsFrom n k) :
    ((idsFrom n k).filter (fun x => x ≠ m)).length = k - 1 := by
  induction k generalizing n with
  | zero => simp [idsFrom] at h
  | succ k ih =>
    rw [idsFrom, List.mem_cons] at h
    rw [idsFrom, List.filter_cons]
    by_cases hm : m = n
    · have hkeep : (idsFrom (n + 1) k).filter (fun x => x ≠ m) =
          idsFrom (n + 1) k := by
        apply List.filter_eq_self.2
        intro a ha
        rw [mem_idsFrom] at ha
        simp only [ne_eq, decide_eq_true_eq]
        omega
      rw [if_neg (by simp [hm]), hkeep, idsFrom_length]
      omega
    · have hmem : m ∈ idsFrom (n + 1) k := by
        rcases h with h | h
        · exact absurd h hm
        · exact h
      have hk : 0 < k := by
        by_contra hk
        have hk0 : k = 0 := by omega
        rw [hk0] at hmem
        simp [idsFrom] at hmem
      have hcond : (decide (n ≠ m)) = true :=
        decide_eq_true (fun hh => hm hh.symm)
      rw [if_pos hcond, List.length_cons, ih (n + 1) hmem]
      omega

theorem length_filter_id_ne (ts : List Task) (k : Int) :
    (ts.filter (fun t => t.id ≠ k)).length =
      ((ts.map Task.id).filter (fun x => x ≠ k)).length := by
  induction ts with
  | nil => rfl
  | cons t ts ih =>
    rw [List.map_cons, List.filter_cons, List.filter_cons]
    by_cases h : t.id = k
    · rw [if_neg (by simp [h]), if_neg (by simp [h])]
      exact ih
    · rw [if_pos (by simp [h]), if_pos (by simp [h])]
      rw [List.length_cons, List.length_cons, ih]

theorem deleteTask_length_dense (ts : List Task) (k : Int)
    (hd : denseIds ts) (hk : k ∈ ts.map Task.id) :
    (deleteTask k ts).length = ts.length - 1 := by
  rw [deleteTask, renumberFrom_length, length_filter_id_ne]
  rw [denseIds] at hd
  rw [hd] at hk ⊢
  exact idsFrom_filter_ne_length ts.length 1 k hk

/-- C6 counterexample: for the store of size `N = 1` with the single id
`k = 1`, delete-then-readd assigns the new task id `1 = N = k`, so the
claim's conjunct "not k" fails (it contradicts "id N" whenever `k = N`). -/
theorem delete_readd_claim_false :
    ¬ (lastId (addTask "b" none 0 "c"
          (deleteTask 1 [⟨1, "a", none, 0, false, "c"⟩])) = 1 ∧
       lastId (addTask "b" none 0 "c"
          (deleteTask 1 [⟨1, "a", none, 0, false, "c"⟩])) ≠ 1 ∧
       lastId (addTask "b" none 0 "c"
          (deleteTask 1 [⟨1, "a", none, 0, false, "c"⟩])) ≠ 2) := by
  decide

/-- C6 amended: for every store of size `N` with dense ids `1..N` and every
id `k` present in it, delete-then-readd assigns the new task id `N`; this
id is never `N + 1`, and it differs from `k` whenever `k ≠ N` (for `k = N`
the assigned id `N` coincides with `k`). -/
theorem delete_readd_amended (d : String) (dd : Option String) (rd : Int)
    (cr : String) (ts : List Task) (k : Int) (hd : denseIds ts)
    (hk : ∃ t ∈ ts, t.id = k) :
    lastId (addTask d dd rd cr (deleteTask k ts)) = (ts.length : Int) ∧
    (k ≠ (ts.length : Int) →
      lastId (addTask d dd rd cr (deleteTask k ts)) ≠ k) ∧
    lastId (addTask d dd rd cr (deleteTask k ts)) ≠ (ts.length : Int) + 1 := by
  have hk' : k ∈ ts.map Task.id := by
    rcases hk with ⟨t, ht, rfl⟩
    exact List.mem_map_of_mem Task.id ht
  have hne : ts ≠ [] := by
    intro hnil
    rw [hnil] at hk'
    simp at hk'
  have hlen : 1 ≤ ts.length := List.length_pos.2 hne
  have hmain : lastId (addTask d dd rd cr (deleteTask k ts)) =
      (ts.length : Int) := by
    rw [lastId_addTask, deleteTask_length_dense ts k hd hk']
    omega
  refine ⟨hmain, fun hkn => ?_, ?_⟩
  · rw [hmain]
    exact fun h => hkn h.symm
  · rw [hmain]
    omega

/-- Witness for C6 amended: a dense store of size 2, deleting id 1 and
re-adding assigns id 2. -/
theorem delete_readd_witness :
    lastId (addTask "n" none 0 "c3"
        (deleteTask 1 [⟨1, "a", none, 0, false, "c1"⟩,
          ⟨2, "b", none, 0, false, "c2"⟩])) =
      (([⟨1, "a", none, 0, false, "c1"⟩,
          ⟨2, "b", none, 0, false, "c2"⟩] : List Task).length : Int) ∧
    ((1 : Int) ≠ (([⟨1, "a", none, 0, false, "c1"⟩,
          ⟨2, "b", none, 0, false, "c2"⟩] : List Task).length : Int) →
      lastId (addTask "n" none 0 "c3"
        (deleteTask 1 [⟨1, "a", none, 0, false, "c1"⟩,
          ⟨2, "b", none, 0, false, "c2"⟩])) ≠ 1) ∧
    lastId (addTask "n" none 0 "c3"
        (deleteTask 1 [⟨1, "a", none, 0, false, "c1"⟩,
          ⟨2, "b", none, 0, false, "c2"⟩])) ≠
      (([⟨1, "a", none, 0, false, "c1"⟩,
          ⟨2, "b", none, 0, false, "c2"⟩] : List Task).length : Int) + 1 :=
  delete_readd_amended "n" none 0 "c3"
    [⟨1, "a", none, 0, false, "c1"⟩, ⟨2, "b", none, 0, false, "c2"⟩] 1
    (by decide) (by decide)

/-- Numeric value of a digit string (most significant digit first). -/
def digitsVal (cs : List Char) : Nat :=
  cs.foldl (fun a c => a * 10 + (c.toNat - 48)) 0

/-- Split a character list at every dash, keeping empty pieces. -/
def splitDashAux : List Char → List Char → List (List Char)
  | [], acc => [acc.reverse]
  | c :: rest, acc =>
    if c = '-' then acc.reverse :: splitDashAux rest []
    else splitDashAux rest (c :: acc)

/-- Proleptic-Gregorian leap year, the rule `datetime.date` uses. -/
def isLeap (y : Nat) : Bool :=
  y % 4 = 0 && (y % 100 ≠ 0 || y % 400 = 0)

/-- Length of a month in the proleptic Gregorian calendar. -/
def daysInMonth (y m : Nat) : Nat :=
  if m = 2 then (if isLeap y then 29 else 28)
  else if m = 4 || m = 6 || m = 9 || m = 11 then 30
  else 31

/-- `datetime.strptime(s, "%Y-%m-%d").date()`: accepts exactly a four-digit
year, a one- or two-digit month `1..12`, a one- or two-digit day that is a
valid day of that month, separated by dashes with nothing left over; years
below `0001` are rejected (`datetime.MINYEAR`).  Any other string raises
`ValueError`, modelled by `none`. -/
def parseDate (s : String) : Option (Nat × Nat × Nat) :=
  match splitDashAux s.data [] with
  | [ys, ms, ds] =>
    if ys.length = 4 ∧ ys.all Char.isDigit ∧
       1 ≤ ms.length ∧ ms.length ≤ 2 ∧ ms.all Char.isDigit ∧
       1 ≤ ds.length ∧ ds.length ≤ 2 ∧ ds.all Char.isDigit then
      let y := digitsVal ys
      let m := digitsVal ms
      let d := digitsVal ds
      if 1 ≤ y ∧ 1 ≤ m ∧ m ≤ 12 ∧ 1 ≤ d ∧ d ≤ daysInMonth y m then
        some (y, m, d)
      else none
    else none
  | _ => none

/-- Day number of a proleptic-Gregorian date, `1970-01-01 = 0` (Howard
Hinnant's `days_from_civil`).  Python's `date` ordering and `timedelta`
arithmetic coincide with ordering and subtraction of these numbers. -/
def daysFromCivil (y m d : Nat) : Int :=
  let yy : Nat := if m ≤ 2 then y - 1 else y
  let era : Nat := yy / 400
  let yoe : Nat := yy - era * 400
  let mp : Nat := (m + 9) % 12
  let doy : Nat := (153 * mp + 2) / 5 + d - 1
  let doe : Nat := yoe * 365 + yoe / 4 - yoe / 100 + doy
  ((era * 146097 + doe : Nat) : Int) - 719468

/-- Day number of `date.min = 0001-01-01`, the smallest value
`datetime.date` can represent. -/
def minDay : Int := daysFromCivil 1 1 1

/-- Day number of `date.max = 9999-12-31`, the largest value
`datetime.date` can represent. -/
def maxDay : Int := daysFromCivil 9999 12 31

/-- `TodoManager.check_reminders`, with the current date passed in as a day
number.  For each task, in store order: a task with no due date (`None` or
the falsy empty string) or already completed is skipped silently; a due
date that fails to parse is reported (second component) and the scan
continues; otherwise `remind_date = due - timedelta(days=reminder_days)` is
computed — if that leaves the representable date range the `OverflowError`
is not caught by the scan's `except ValueError` and aborts it
(`Except.error`), else the task is reported due (first component) when
`now >= remind_date`. -/
def checkReminders (now : Int) : List Task → Except Unit (List Task × List Task)
  | [] => Except.ok ([], [])
  | t :: ts =>
    match t.due_date with
    | none => checkReminders now ts
    | some ds =>
      if ds = "" ∨ t.completed = true then checkReminders now ts
      else
        match parseDate ds with
        | none =>
          match checkReminders now ts with
          | Except.error e => Except.error e
          | Except.ok (rs, ws) => Except.ok (rs, t :: ws)
        | some (y, m, d) =>
          let r : Int := daysFromCivil y m d - t.reminder_days
          if r < minDay ∨ maxDay < r then Except.error ()
          else
            match checkReminders now ts with
            | Except.error e => Except.error e
            | Except.ok (rs, ws) =>
              if now ≥ r then Except.ok (t :: rs, ws) else Except.ok (rs, ws)

/-- Reminder eligibility as the claim states it: incomplete, with a due
date that parses as a valid calendar date, and
`now ≥ due_date - reminder_days`. -/
def eligible (now : Int) (t : Task) : Bool :=
  match t.due_date with
  | none => false
  | some ds =>
    if ds = "" ∨ t.completed = true then false
    else
      match parseDate ds with
      | none => false
      | some (y, m, d) => decide (now ≥ daysFromCivil y m d - t.reminder_days)

/-- Tasks the scan warns about: incomplete, due date present (truthy) but
not parsing as a valid calendar date. -/
def warnedB (t : Task) : Bool :=
  match t.due_date with
  | none => false
  | some ds =>
    if ds = "" ∨ t.completed = true then false
    else (parseDate ds).isNone

/-- A task whose reminder computation stays inside the representable date
range (vacuously true for tasks the scan skips). -/
def safeRemind (t : Task) : Bool :=
  match t.due_date with
  | none => true
  | some ds =>
    if ds = "" ∨ t.completed = true then true
    else
      match parseDate ds with
      | none => true
      | some (y, m, d) =>
        decide (minDay ≤ daysFromCivil y m d - t.reminder_days ∧
          daysFromCivil y m d - t.reminder_days ≤ maxDay)

/-- C3 counterexample: the incomplete task due `0001-01-01` with
`reminder_days = 1` satisfies the claim's inclusion condition
(`now ≥ due - 1` for `now = 2025-01-01`), but `check_reminders` does not
return it: `due - timedelta(days=1)` underflows `date.min`, raising an
`OverflowError` that the scan's `except ValueError` does not catch, so the
whole scan aborts instead of producing the claimed filtered sequence. -/
theorem reminders_claim_false :
    ¬ (checkReminders (daysFromCivil 2025 1 1)
          [⟨1, "x", some "0001-01-01", 1, false, "c"⟩] =
        Except.ok
          (([⟨1, "x", some "0001-01-01", 1, false, "c"⟩] : List Task).filter
              (eligible (daysFromCivil 2025 1 1)),
            ([⟨1, "x", some "0001-01-01", 1, false, "c"⟩] : List Task).filter
              warnedB)) := by
  intro hc
  rw [show checkReminders (daysFromCivil 2025 1 1)
      [⟨1, "x", some "0001-01-01", 1, false, "c"⟩] =
      Except.error () from rfl] at hc
  exact Except.noConfusion hc

/-- C3 amended: for every store whose tasks all keep the reminder
computation inside the representable date range (`safeRemind`) and every
date `now`, `check_reminders` returns, in store order, exactly the
incomplete tasks with a due date parsing as a valid `YYYY-MM-DD` calendar
date such that `now ≥ due_date - reminder_days`, and separately reports,
in store order, exactly the incomplete tasks whose (truthy) due date fails
to parse, continuing the scan past them; a task with no due date is never
included.  Without the range condition the scan can instead be aborted by
an uncaught `OverflowError` (see the counterexample). -/
theorem reminders_amended (now : Int) (ts : List Task)
    (h : ∀ t ∈ ts, safeRemind t = true) :
    checkReminders now ts =
      Except.ok (ts.filter (eligible now), ts.filter warnedB) := by
  induction ts with
  | nil => rfl
  | cons t ts ih =>
    have ht := h t (List.mem_cons_self t ts)
    have hrest := ih (fun x hx => h x (List.mem_cons_of_mem t hx))
    rw [checkReminders, List.filter_cons, List.filter_cons]
    cases hdd : t.due_date with
    | none => simp [hrest, eligible, warnedB, hdd]
    | some ds =>
      by_cases hskip : ds = "" ∨ t.completed = true
      · simp [hrest, eligible, warnedB, hdd, hskip]
      · cases hp : parseDate ds with
        | none => simp [hrest, eligible, warnedB, hdd, hskip, hp]
        | some ymd =>
          obtain ⟨y, m, d⟩ := ymd
          have hsafe : minDay ≤ daysFromCivil y m d - t.reminder_days ∧
              daysFromCivil y m d - t.reminder_days ≤ maxDay := by
            simp [safeRemind, hdd, hskip, hp] at ht
            omega
          have hnotover : ¬ (daysFromCivil y m d - t.reminder_days < minDay ∨
              maxDay < daysFromCivil y m d - t.reminder_days) := by omega
          by_cases hnow : now ≥ daysFromCivil y m d - t.reminder_days
          · simp [hrest, eligible, warnedB, hdd, hskip, hp, hnotover, hnow]
          · simp [hrest, eligible, warnedB, hdd, hskip, hp, hnotover, hnow]

/-- The boundary task of the claim: due `2025-12-25`, reminder offset 1. -/
def boundaryTask : Task := ⟨1, "buy milk", some "2025-12-25", 1, false, "c"⟩

/-- Witness for C3 amended: the task due `2025-12-25` with
`reminder_days = 1` is reported for `now = 2025-12-24` and
`now = 2025-12-25` and not for `now = 2025-12-23`. -/
theorem reminders_witness :
    checkReminders (daysFromCivil 2025 12 24) [boundaryTask] =
      Except.ok ([boundaryTask], []) ∧
    checkReminders (daysFromCivil 2025 12 25) [boundaryTask] =
      Except.ok ([boundaryTask], []) ∧
    checkReminders (daysFromCivil 2025 12 23) [boundaryTask] =
      Except.ok ([], []) :=
  ⟨(reminders_amended (daysFromCivil 2025 12 24) [boundaryTask]
      (by decide)).trans (by rfl),
   (reminders_amended (daysFromCivil 2025 12 25) [boundaryTask]
      (by decide)).trans (by rfl),
   (reminders_amended (daysFromCivil 2025 12 23) [boundaryTask]
      (by decide)).trans (by rfl)⟩

/-- A parsed JSON value, the output of `json.load`.  Numbers are modelled
as integers; no claim depends on fractional values. -/
inductive Json where
  | null
  | bool (b : Bool)
  | num (n : Int)
  | str (s : String)
  | arr (elems : List Json)
  | obj (fields : List (String × Json))

/-- A task as `Task.from_dict` builds it from a raw record: the six field
values are whatever JSON values the record carries — `from_dict` performs
no type checking. -/
structure JTask where
  id : Json
  description : Json
  due_date : Json
  reminder_days : Json
  completed : Json
  created : Json

/-- Python `dict` subscript on a parsed JSON object: the value under the
key, or `none` for a `KeyError`. -/
def lookupKey (kvs : List (String × Json)) (k : String) : Option Json :=
  match kvs.find? (fun p => p.1 == k) with
  | none => none
  | some p => some p.2

/-- Outcome of `TodoManager.load_tasks` on an existing backing file:
`ok` (tasks loaded, possibly zero), `recovered` (a `json.JSONDecodeError`
or `KeyError` was caught: one warning is printed and the store falls back
to empty), or `crash` (an exception outside those two types — in practice
`TypeError` — propagates uncaught out of the constructor). -/
inductive LoadResult where
  | ok (tasks : List JTask)
  | recovered
  | crash

/-- Whether the outcome is the caught-and-warned fallback to an empty
store. -/
def isRecovered : LoadResult → Bool
  | LoadResult.recovered => true
  | LoadResult.ok _ => false
  | LoadResult.crash => false

/-- `[Task.from_dict(t) for t in data]` over the elements of a JSON array,
in order, stopping at the first exception: a non-object element raises
`TypeError` (uncaught, `crash`); an object missing one of the six required
keys raises `KeyError` (caught, `recovered`). -/
def loadElems : List Json → LoadResult
  | [] => LoadResult.ok []
  | e :: rest =>
    match e with
    | Json.obj kvs =>
      match lookupKey kvs "description", lookupKey kvs "due_date",
          lookupKey kvs "reminder_days", lookupKey kvs "id",
          lookupKey kvs "completed", lookupKey kvs "created" with
      | some de, some du, some rd, some i, some co, some cr =>
        match loadElems rest with
        | LoadResult.ok tasks => LoadResult.ok (⟨i, de, du, rd, co, cr⟩ :: tasks)
        | r => r
      | _, _, _, _, _, _ => LoadResult.recovered
    | _ => LoadResult.crash

/-- `TodoManager.load_tasks` on an existing backing file, by content:
`none` is a file that fails JSON parsing (`json.JSONDecodeError`, caught).
A parsed array is loaded element-wise.  Iterating a non-empty object
yields its keys (strings) and iterating a non-empty string yields
characters, and subscripting those with a string key raises `TypeError`
(uncaught); an empty object or empty string iterates to zero records and
loads as an empty store with no warning; a number, boolean or `null` is
not iterable, again an uncaught `TypeError`.  `load_tasks` never writes
the file, so in this model the file content is untouched by loading. -/
def loadJson : Option Json → LoadResult
  | none => LoadResult.recovered
  | some (Json.arr l) => loadElems l
  | some (Json.obj []) => LoadResult.ok []
  | some (Json.obj (_ :: _)) => LoadResult.crash
  | some (Json.str s) => if s = "" then LoadResult.ok [] else LoadResult.crash
  | some (Json.num _) => LoadResult.crash
  | some (Json.bool _) => LoadResult.crash
  | some Json.null => LoadResult.crash

/-- Whether a JSON value is an object. -/
def isObjB : Json → Bool
  | Json.obj _ => true
  | _ => false

/-- Whether a JSON object carries all six required record fields. -/
def hasAllKeysB : Json → Bool
  | Json.obj kvs =>
    (lookupKey kvs "description").isSome && (lookupKey kvs "due_date").isSome &&
    (lookupKey kvs "reminder_days").isSome && (lookupKey kvs "id").isSome &&
    (lookupKey kvs "completed").isSome && (lookupKey kvs "created").isSome
  | _ => false

/-- A structurally valid backing file: parsed JSON that is an array whose
elements are all objects carrying every required field. -/
def wellFormedFile : Option Json → Bool
  | none => false
  | some (Json.arr l) => l.all hasAllKeysB
  | some _ => false

/-- C4 counterexample: the file `5` is valid JSON but structurally invalid
(not an array of records), yet `load_tasks` does not recover: iterating the
integer raises a `TypeError`, which the `except (json.JSONDecodeError,
KeyError)` handler does not catch, so the exception escapes `TodoManager`'s
constructor instead of producing the warned empty store. -/
theorem load_malformed_claim_false :
    wellFormedFile (some (Json.num 5)) = false ∧
    loadJson (some (Json.num 5)) = LoadResult.crash ∧
    ¬ (∀ c : Option Json, wellFormedFile c = false →
        isRecovered (loadJson c) = true) := by
  refine ⟨rfl, rfl, fun hc => ?_⟩
  exact absurd (hc (some (Json.num 5)) rfl) (by decide)

theorem loadElems_obj_missing (kvs : List (String × Json)) (rest : List Json)
    (hmiss : hasAllKeysB (Json.obj kvs) = false) :
    loadElems (Json.obj kvs :: rest) = LoadResult.recovered := by
  rw [hasAllKeysB] at hmiss
  cases h1 : lookupKey kvs "description" with
  | none => simp [loadElems, h1]
  | some de =>
    cases h2 : lookupKey kvs "due_date" with
    | none => simp [loadElems, h1, h2]
    | some du =>
      cases h3 : lookupKey kvs "reminder_days" with
      | none => simp [loadElems, h1, h2, h3]
      | some rd =>
        cases h4 : lookupKey kvs "id" with
        | none => simp [loadElems, h1, h2, h3, h4]
        | some i =>
          cases h5 : lookupKey kvs "completed" with
          | none => simp [loadElems, h1, h2, h3, h4, h5]
          | some co =>
            cases h6 : lookupKey kvs "created" with
            | none => simp [loadElems, h1, h2, h3, h4, h5, h6]
            | some cr =>
              rw [h1, h2, h3, h4, h5, h6] at hmiss
              simp at hmiss

theorem loadElems_cons_complete (kvs : List (String × Json)) (rest : List Json)
    (hall : hasAllKeysB (Json.obj kvs) = true)
    (hr : loadElems rest = LoadResult.recovered) :
    loadElems (Json.obj kvs :: rest) = LoadResult.recovered := by
  rw [hasAllKeysB] at hall
  simp only [Bool.and_eq_true, Option.isSome_iff_exists] at hall
  obtain ⟨⟨⟨⟨⟨⟨de, hde⟩, du, hdu⟩, rd, hrd⟩, i, hi⟩, co, hco⟩, cr, hcr⟩ := hall
  rw [loadElems, hde, hdu, hrd, hi, hco, hcr, hr]

theorem loadElems_first_bad_missing (pre : List Json)
    (kvs : List (String × Json)) (rest : List Json)
    (hpre : ∀ e ∈ pre, hasAllKeysB e = true)
    (hmiss : hasAllKeysB (Json.obj kvs) = false) :
    loadElems (pre ++ Json.obj kvs :: rest) = LoadResult.recovered := by
  induction pre with
  | nil => exact loadElems_obj_missing kvs rest hmiss
  | cons e pre ih =>
    have he := hpre e (List.mem_cons_self e pre)
    obtain ⟨kvs0, rfl⟩ : ∃ k0, e = Json.obj k0 := by
      cases e
      case obj k0 => exact ⟨k0, rfl⟩
      all_goals simp [hasAllKeysB] at he
    rw [List.cons_append]
    exact loadElems_cons_complete kvs0 _ he
      (ih (fun x hx => hpre x (List.mem_cons_of_mem _ hx)))

/-- C4 amended: `load_tasks` recovers — a single warning and a fallback to
the empty store, the bad file left untouched — when the failure raises an
exception its handler catches: the file fails JSON parsing
(`JSONDecodeError`), or it parses to an array whose records, scanned in
order, are complete objects up to a first object missing one of the six
required fields (`KeyError`), whatever elements follow that record; in
particular this covers every array of objects in which some record is
missing a required field.  Recovery does not extend to every malformed
file: a file whose parsed value is not an array of records — such as the
bare number of the counterexample — or whose scan reaches a non-object
element while every earlier record was complete, raises a `TypeError` the
handler does not catch; and a file parsing to an empty object or empty
string silently loads as an empty store with no warning. -/
theorem load_malformed_amended (c : Option Json)
    (h : c = none ∨ ∃ pre kvs rest,
      c = some (Json.arr (pre ++ Json.obj kvs :: rest)) ∧
      (∀ e ∈ pre, hasAllKeysB e = true) ∧
      hasAllKeysB (Json.obj kvs) = false) :
    loadJson c = LoadResult.recovered := by
  rcases h with rfl | ⟨pre, kvs, rest, rfl, hpre, hmiss⟩
  · rfl
  · rw [loadJson]
    exact loadElems_first_bad_missing pre kvs rest hpre hmiss

/-- Witness for C4 amended: the array holding an object that is missing
the other five required fields and then a bare number recovers — the
`KeyError` on the first record fires before the scan ever reaches the
non-object element. -/
theorem load_malformed_witness :
    loadJson (some (Json.arr [Json.obj [("description", Json.str "x")],
        Json.num 5])) = LoadResult.recovered :=
  load_malformed_amended
    (some (Json.arr [Json.obj [("description", Json.str "x")], Json.num 5]))
    (Or.inr ⟨[], [("description", Json.str "x")], [Json.num 5], rfl,
      by decide, by decide⟩)

end Todo
